import Mathlib

/-!
Shallow embedding of `working_code/final_project_vaccine_model_script_OG.py`,
a single-run Monte Carlo disease-spread simulation.

Modelling conventions:
* Python `int` becomes `Int` (arbitrary precision, may be negative).
* Python `float` probabilities and the values produced by `random.random()`
  become `ℚ`; the stream of uniform draws is a function `u : Nat → ℚ`
  together with an index `ix` of the next unconsumed draw, threaded
  explicitly through every function.  The constraint that draws lie in
  `[0,1)` appears as a hypothesis `∀ i, 0 ≤ u i` (resp. `u i < 1`) where a
  claim needs it.
* A pandas `DataFrame` row `{'Day': d, 'Infected': n}` becomes the pair
  `(d, n) : Nat × Int`; the frame is the list of its rows in order.
* The unbounded `while` loop of `full_pop_infected` is modelled with a
  fuel parameter: the function returns `none` when the loop has not
  stopped within `fuel` iterations, and `some` of its result otherwise.
  A call terminates exactly when some fuel makes it return `some`.
-/

/-- One data-frame row: `(Day, Infected)`. -/
abbrev Row := Nat × Int

/-- The inner `while encounter < max_infections` loop of `daily_infection`:
`k` encounters remain; each consumes one uniform draw `u ix` and increments
`extra` exactly when the draw is strictly below `p`.  Returns the updated
`extra` and the index of the next unconsumed draw. -/
def encounterLoop (p : ℚ) (u : Nat → ℚ) : Nat → Nat → Nat → Nat × Nat
  | extra, ix, 0 => (extra, ix)
  | extra, ix, k + 1 =>
      encounterLoop p u (if u ix < p then extra + 1 else extra) (ix + 1) k

/-- The outer `for infected_person in list(range(0, starting_infected))` loop
of `daily_infection`: `n` infected persons remain; each runs `m` encounters. -/
def personLoop (p : ℚ) (u : Nat → ℚ) (m : Nat) : Nat → Nat → Nat → Nat × Nat
  | extra, ix, 0 => (extra, ix)
  | extra, ix, n + 1 =>
      personLoop p u m (encounterLoop p u extra ix m).1 (encounterLoop p u extra ix m).2 n

/-- Embedding of `daily_infection` from the source: for each of the `starting_infected`
persons (`range(0, starting_infected)` is empty when the count is not
positive) run `max_infections` encounters (`while encounter < max_infections`
runs `max_infections.toNat` times); each encounter consumes one draw and
succeeds when the draw is strictly below `infection_probability`.  Returns
`extra_infected + starting_infected` together with the next draw index. -/
def daily_infection (starting_infected : Int) (infection_probability : ℚ)
    (max_infections : Int) (u : Nat → ℚ) (ix : Nat) : Int × Nat :=
  ((personLoop infection_probability u max_infections.toNat 0 ix starting_infected.toNat).1
      + starting_infected,
    (personLoop infection_probability u max_infections.toNat 0 ix starting_infected.toNat).2)

/-- Number of draws among `u ix, u (ix+1), ..., u (ix+k-1)` that are strictly
below `p`. -/
def specCount (p : ℚ) (u : Nat → ℚ) : Nat → Nat → Nat
  | _, 0 => 0
  | ix, k + 1 => (if u ix < p then 1 else 0) + specCount p u (ix + 1) k

/-- The daily update rule exactly as the specification words it: consume
exactly `starting_infected * max_infections` uniform draws, count as
`extra_infected` the draws strictly below `infection_probability`, and return
`starting_infected + extra_infected`, with no cap and no deduplication. -/
def daily_infection_ref (starting_infected : Int) (infection_probability : ℚ)
    (max_infections : Int) (u : Nat → ℚ) (ix : Nat) : Int × Nat :=
  (starting_infected +
      (specCount infection_probability u ix (starting_infected * max_infections).toNat : Int),
    ix + (starting_infected * max_infections).toNat)

theorem encounterLoop_eq (p : ℚ) (u : Nat → ℚ) :
    ∀ (k extra ix : Nat),
      encounterLoop p u extra ix k = (extra + specCount p u ix k, ix + k) := by
  intro k
  induction k with
  | zero => intro extra ix; simp [encounterLoop, specCount]
  | succ k ih =>
      intro extra ix
      rw [encounterLoop, ih, specCount]
      by_cases h : u ix < p <;> simp only [h, if_true, if_false] <;>
        refine Prod.ext ?_ ?_ <;> simp <;> omega

theorem specCount_add (p : ℚ) (u : Nat → ℚ) :
    ∀ (a ix b : Nat),
      specCount p u ix (a + b) = specCount p u ix a + specCount p u (ix + a) b := by
  intro a
  induction a with
  | zero => intro ix b; simp [specCount]
  | succ a ih =>
      intro ix b
      rw [show a + 1 + b = (a + b) + 1 by omega, specCount, specCount, ih]
      rw [show ix + 1 + a = ix + (a + 1) by omega]
      omega

theorem personLoop_eq (p : ℚ) (u : Nat → ℚ) (m : Nat) :
    ∀ (n extra ix : Nat),
      personLoop p u m extra ix n = (extra + specCount p u ix (n * m), ix + n * m) := by
  intro n
  induction n with
  | zero => intro extra ix; simp [personLoop, specCount]
  | succ n ih =>
      intro extra ix
      rw [personLoop, encounterLoop_eq, ih]
      dsimp only
      rw [show (n + 1) * m = m + n * m by ring, specCount_add]
      refine Prod.ext ?_ ?_ <;> dsimp only <;> omega

/-- Core characterization of `daily_infection`: it adds the number of
successful draws among the `starting_infected.toNat * max_infections.toNat`
consumed ones, and advances the draw index by exactly that many draws. -/
theorem daily_infection_eq (s : Int) (p : ℚ) (m : Int) (u : Nat → ℚ) (ix : Nat) :
    daily_infection s p m u ix =
      (s + (specCount p u ix (s.toNat * m.toNat) : Int), ix + s.toNat * m.toNat) := by
  rw [daily_infection, personLoop_eq]
  dsimp only
  refine Prod.ext ?_ ?_
  · dsimp only; omega
  · rfl

/-- The new infected count is never below the old one. -/
theorem daily_infection_fst_ge (s : Int) (p : ℚ) (m : Int) (u : Nat → ℚ) (ix : Nat) :
    s ≤ (daily_infection s p m u ix).1 := by
  rw [daily_infection_eq]
  have : (0 : Int) ≤ (specCount p u ix (s.toNat * m.toNat) : Int) := Int.natCast_nonneg _
  omega

theorem specCount_eq_zero (p : ℚ) (u : Nat → ℚ) (hp : p ≤ 0) (hu : ∀ i, 0 ≤ u i) :
    ∀ (k ix : Nat), specCount p u ix k = 0 := by
  intro k
  induction k with
  | zero => intro ix; rfl
  | succ k ih =>
      intro ix
      rw [specCount, ih]
      have : ¬ u ix < p := not_lt.2 (le_trans hp (hu ix))
      simp [this]

/-- C1: `daily_infection` refines the specification's reference definition:
for `starting_infected ≥ 0` and `max_infections ≥ 0` it consumes exactly
`starting_infected * max_infections` uniform draws, counts as
`extra_infected` the draws strictly below `infection_probability`, and
returns `starting_infected + extra_infected`, with no cap and no
deduplication. -/
theorem daily_infection_refines_ref (s : Int) (p : ℚ) (m : Int) (u : Nat → ℚ) (ix : Nat)
    (hs : 0 ≤ s) (hm : 0 ≤ m) :
    daily_infection s p m u ix = daily_infection_ref s p m u ix := by
  rw [daily_infection_eq, daily_infection_ref]
  have hk : (s * m).toNat = s.toNat * m.toNat := by
    rcases Int.eq_ofNat_of_zero_le hs with ⟨a, rfl⟩
    rcases Int.eq_ofNat_of_zero_le hm with ⟨b, rfl⟩
    rw [← Int.natCast_mul, Int.toNat_natCast, Int.toNat_natCast, Int.toNat_natCast]
  rw [hk]

/-- Witness for C1 at concrete inputs. -/
theorem daily_infection_refines_ref_witness :
    (0 : Int) ≤ 2 ∧ (0 : Int) ≤ 3 ∧
      daily_infection 2 (1/2) 3 (fun _ => (1:ℚ)/4) 0 =
        daily_infection_ref 2 (1/2) 3 (fun _ => (1:ℚ)/4) 0 :=
  ⟨by norm_num, by norm_num,
    daily_infection_refines_ref 2 (1/2) 3 (fun _ => (1:ℚ)/4) 0 (by norm_num) (by norm_num)⟩

/-- C6: with a non-positive infection probability (e.g. after subtracting a
vaccine effectiveness) and draws from `[0,1)`, no trial comparison ever
succeeds, so `daily_infection` returns exactly `starting_infected`. -/
theorem daily_infection_nonpos_prob (s : Int) (p : ℚ) (m : Int) (u : Nat → ℚ) (ix : Nat)
    (hp : p ≤ 0) (hu : ∀ i, 0 ≤ u i) (hs : 0 ≤ s) (hm : 0 ≤ m) :
    (daily_infection s p m u ix).1 = s := by
  rw [daily_infection_eq]
  dsimp only
  rw [specCount_eq_zero p u hp hu]
  simp

/-- Witness for C6 at concrete inputs. -/
theorem daily_infection_nonpos_prob_witness :
    (-(1:ℚ)/2 ≤ 0) ∧ (∀ i : Nat, (0:ℚ) ≤ (fun _ => (1:ℚ)/2) i) ∧
      (0:Int) ≤ 3 ∧ (0:Int) ≤ 3 ∧
      (daily_infection 3 (-(1:ℚ)/2) 3 (fun _ => (1:ℚ)/2) 0).1 = 3 :=
  ⟨by norm_num, fun _ => by norm_num, by norm_num, by norm_num,
    daily_infection_nonpos_prob 3 (-(1:ℚ)/2) 3 (fun _ => (1:ℚ)/2) 0 (by norm_num)
      (fun _ => by norm_num) (by norm_num) (by norm_num)⟩

/-- C10: when `starting_infected ≤ 0` (empty `range(0, starting_infected)`) or
`max_infections = 0` (the `while` guard fails at once), no trial runs, no draw
is consumed, and `starting_infected` is returned unchanged — a negative input
comes back negative rather than being rejected. -/
theorem daily_infection_no_trials (s : Int) (p : ℚ) (m : Int) (u : Nat → ℚ) (ix : Nat)
    (h : s ≤ 0 ∨ m = 0) :
    daily_infection s p m u ix = (s, ix) := by
  rw [daily_infection_eq]
  rcases h with h | h
  · rw [Int.toNat_of_nonpos h]
    simp [specCount]
  · rw [h]
    simp [specCount]

/-- Witness for C10 at a negative starting count. -/
theorem daily_infection_no_trials_witness :
    ((-2 : Int) ≤ 0 ∨ (3:Int) = 0) ∧
      daily_infection (-2) (1/2) 3 (fun _ => (0:ℚ)) 7 = (-2, 7) :=
  ⟨Or.inl (by norm_num),
    daily_infection_no_trials (-2) (1/2) 3 (fun _ => (0:ℚ)) 7 (Or.inl (by norm_num))⟩

/-- The last row's Infected value: `infected_df['Infected'][len(infected_df)-1]`
(the data frames of this script are never empty, so the default is irrelevant). -/
def lastInfected (df : List Row) : Int := (df.getLast?.map Prod.snd).getD 0

/-- The `for day in list(range(1, number_days+1))` loop of `infection_model`:
`n` days remain and `day` is the next day index; each iteration applies
`daily_infection` (with the default `max_infections = 3`) to the last recorded
Infected value and appends the row `(day, result)`. -/
def infection_model_loop (p : ℚ) (u : Nat → ℚ) : Nat → List Row → Nat → Nat → List Row × Nat
  | _, df, ix, 0 => (df, ix)
  | day, df, ix, n + 1 =>
      infection_model_loop p u (day + 1)
        (df ++ [(day, (daily_infection (lastInfected df) p 3 u ix).1)])
        (daily_infection (lastInfected df) p 3 u ix).2 n

/-- Embedding of `infection_model` from the source: day-0 row `(0, starting_infected)`,
then one iteration per element of `range(1, number_days+1)`. -/
def infection_model (number_days starting_infected : Int) (p : ℚ) (u : Nat → ℚ)
    (ix : Nat) : List Row × Nat :=
  infection_model_loop p u 1 [(0, starting_infected)] ix number_days.toNat

/-- The `while infected_df['Infected'][...] < population` loop of
`full_pop_infected`, with fuel: `none` means the loop did not stop within
`fuel` iterations.  On success it returns the frame, the final value of the
`day` counter (the one the source prints), and the next draw index. -/
def full_pop_loop (population : Int) (p : ℚ) (u : Nat → ℚ) :
    Nat → Nat → List Row → Nat → Option (List Row × Nat × Nat)
  | 0, day, df, ix =>
      if lastInfected df < population then none else some (df, day, ix)
  | f + 1, day, df, ix =>
      if lastInfected df < population then
        full_pop_loop population p u f (day + 1)
          (df ++ [if (daily_infection (lastInfected df) p 3 u ix).1 < population
                  then ((day, (daily_infection (lastInfected df) p 3 u ix).1) : Row)
                  else (day, population)])
          (daily_infection (lastInfected df) p 3 u ix).2
      else some (df, day, ix)

/-- Embedding of `full_pop_infected` from the source: day-0 row, `day` counter starting at
1, loop until the last recorded value reaches `population`, clamping each
appended value to `population`. -/
def full_pop_infected (population starting_infected : Int) (p : ℚ) (u : Nat → ℚ)
    (ix : Nat) (fuel : Nat) : Option (List Row × Nat × Nat) :=
  full_pop_loop population p u fuel 1 [(0, starting_infected)] ix

/-- The `for day in list(range(1, number_days+1))` loop of
`vaccine_introduction`: before `vaccine_day` the plain probability is used,
from `vaccine_day` onward `infection_probability - vaccine_effectiveness`
(not clamped at zero); the raw result is recorded with no ceiling. -/
def vaccine_loop (vaccine_day : Int) (vaccine_effectiveness infection_probability : ℚ)
    (u : Nat → ℚ) : Nat → List Row → Nat → Nat → List Row × Nat
  | _, df, ix, 0 => (df, ix)
  | day, df, ix, n + 1 =>
      vaccine_loop vaccine_day vaccine_effectiveness infection_probability u (day + 1)
        (df ++ [(day, (daily_infection (lastInfected df)
          (if (day : Int) < vaccine_day then infection_probability
           else infection_probability - vaccine_effectiveness) 3 u ix).1)])
        (daily_infection (lastInfected df)
          (if (day : Int) < vaccine_day then infection_probability
           else infection_probability - vaccine_effectiveness) 3 u ix).2 n

/-- Embedding of `vaccine_introduction` from the source. -/
def vaccine_introduction (starting_infected vaccine_day : Int)
    (vaccine_effectiveness : ℚ) (number_days : Int) (infection_probability : ℚ)
    (u : Nat → ℚ) (ix : Nat) : List Row × Nat :=
  vaccine_loop vaccine_day vaccine_effectiveness infection_probability u 1
    [(0, starting_infected)] ix number_days.toNat

/-- Day-by-day state (Infected value, next draw index) of `infection_model`. -/
def imodel_state (p : ℚ) (u : Nat → ℚ) (s : Int) (ix0 : Nat) : Nat → Int × Nat
  | 0 => (s, ix0)
  | d + 1 =>
      daily_infection (imodel_state p u s ix0 d).1 p 3 u (imodel_state p u s ix0 d).2

/-- Day-by-day state of `vaccine_introduction`: from `vaccine_day` onward the
probability drops by `vaccine_effectiveness` (possibly below zero). -/
def vaccine_state (vd : Int) (ve p : ℚ) (u : Nat → ℚ) (s : Int) (ix0 : Nat) : Nat → Int × Nat
  | 0 => (s, ix0)
  | d + 1 =>
      daily_infection (vaccine_state vd ve p u s ix0 d).1
        (if ((d + 1 : Nat) : Int) < vd then p else p - ve) 3 u
        (vaccine_state vd ve p u s ix0 d).2

theorem lastInfected_concat (df : List Row) (r : Row) :
    lastInfected (df ++ [r]) = r.2 := by
  simp [lastInfected]

theorem map_range_concat (f : Nat → Row) (t : Nat) :
    (List.range (t + 1)).map f = (List.range t).map f ++ [f t] := by
  rw [List.range_succ, List.map_append]
  rfl

theorem lastInfected_map_range (f : Nat → Row) (t : Nat) :
    lastInfected ((List.range (t + 1)).map f) = (f t).2 := by
  rw [map_range_concat, lastInfected_concat]

theorem infection_model_loop_canonical (p : ℚ) (u : Nat → ℚ) (s : Int) (ix0 : Nat) :
    ∀ (n t : Nat),
      infection_model_loop p u (t + 1)
        ((List.range (t + 1)).map (fun i => ((i, (imodel_state p u s ix0 i).1) : Row)))
        (imodel_state p u s ix0 t).2 n =
      ((List.range (t + n + 1)).map (fun i => ((i, (imodel_state p u s ix0 i).1) : Row)),
        (imodel_state p u s ix0 (t + n)).2) := by
  intro n
  induction n with
  | zero => intro t; simp [infection_model_loop]
  | succ n ih =>
      intro t
      rw [infection_model_loop]
      simp only [lastInfected_map_range]
      have hstep : daily_infection (imodel_state p u s ix0 t).1 p 3 u
          (imodel_state p u s ix0 t).2 = imodel_state p u s ix0 (t + 1) := rfl
      rw [hstep]
      have hlist : (List.range (t + 1)).map
            (fun i => ((i, (imodel_state p u s ix0 i).1) : Row)) ++
          [(t + 1, (imodel_state p u s ix0 (t + 1)).1)] =
          (List.range (t + 1 + 1)).map
            (fun i => ((i, (imodel_state p u s ix0 i).1) : Row)) := by
        rw [map_range_concat (fun i => ((i, (imodel_state p u s ix0 i).1) : Row)) (t + 1)]
      rw [hlist, ih (t + 1)]
      rw [show t + 1 + n = t + (n + 1) by omega]

/-- Canonical form: `infection_model` produces exactly the rows `(i, state i)` of the day-by-day
recurrence, for `i = 0 .. number_days.toNat`. -/
theorem infection_model_canonical (N s : Int) (p : ℚ) (u : Nat → ℚ) (ix : Nat) :
    infection_model N s p u ix =
      ((List.range (N.toNat + 1)).map (fun i => ((i, (imodel_state p u s ix i).1) : Row)),
        (imodel_state p u s ix N.toNat).2) := by
  have h := infection_model_loop_canonical p u s ix N.toNat 0
  simp only [Nat.zero_add] at h
  rw [show (List.range 1).map (fun i => ((i, (imodel_state p u s ix i).1) : Row)) =
      [((0 : Nat), s)] from by simp [List.range_succ, imodel_state]] at h
  rw [show (imodel_state p u s ix 0).2 = ix from rfl] at h
  rw [infection_model]
  exact h

theorem vaccine_loop_canonical (vd : Int) (ve p : ℚ) (u : Nat → ℚ) (s : Int) (ix0 : Nat) :
    ∀ (n t : Nat),
      vaccine_loop vd ve p u (t + 1)
        ((List.range (t + 1)).map (fun i => ((i, (vaccine_state vd ve p u s ix0 i).1) : Row)))
        (vaccine_state vd ve p u s ix0 t).2 n =
      ((List.range (t + n + 1)).map
          (fun i => ((i, (vaccine_state vd ve p u s ix0 i).1) : Row)),
        (vaccine_state vd ve p u s ix0 (t + n)).2) := by
  intro n
  induction n with
  | zero => intro t; simp [vaccine_loop]
  | succ n ih =>
      intro t
      rw [vaccine_loop]
      simp only [lastInfected_map_range]
      have hstep : daily_infection (vaccine_state vd ve p u s ix0 t).1
          (if ((t + 1 : Nat) : Int) < vd then p else p - ve) 3 u
          (vaccine_state vd ve p u s ix0 t).2 = vaccine_state vd ve p u s ix0 (t + 1) := rfl
      rw [hstep]
      have hlist : (List.range (t + 1)).map
            (fun i => ((i, (vaccine_state vd ve p u s ix0 i).1) : Row)) ++
          [(t + 1, (vaccine_state vd ve p u s ix0 (t + 1)).1)] =
          (List.range (t + 1 + 1)).map
            (fun i => ((i, (vaccine_state vd ve p u s ix0 i).1) : Row)) := by
        rw [map_range_concat (fun i => ((i, (vaccine_state vd ve p u s ix0 i).1) : Row)) (t + 1)]
      rw [hlist, ih (t + 1)]
      rw [show t + 1 + n = t + (n + 1) by omega]

/-- Canonical form: `vaccine_introduction` produces exactly the rows `(i, state i)` of its
day-by-day recurrence, for `i = 0 .. number_days.toNat`. -/
theorem vaccine_canonical (s vd : Int) (ve : ℚ) (nd : Int) (p : ℚ) (u : Nat → ℚ) (ix : Nat) :
    vaccine_introduction s vd ve nd p u ix =
      ((List.range (nd.toNat + 1)).map
          (fun i => ((i, (vaccine_state vd ve p u s ix i).1) : Row)),
        (vaccine_state vd ve p u s ix nd.toNat).2) := by
  have h := vaccine_loop_canonical vd ve p u s ix nd.toNat 0
  simp only [Nat.zero_add] at h
  rw [show (List.range 1).map (fun i => ((i, (vaccine_state vd ve p u s ix i).1) : Row)) =
      [((0 : Nat), s)] from by simp [List.range_succ, vaccine_state]] at h
  rw [show (vaccine_state vd ve p u s ix 0).2 = ix from rfl] at h
  rw [vaccine_introduction]
  exact h

theorem full_pop_loop_exit (P : Int) (p : ℚ) (u : Nat → ℚ) (fuel day : Nat)
    (df : List Row) (ix : Nat) (h : ¬ lastInfected df < P) :
    full_pop_loop P p u fuel day df ix = some (df, day, ix) := by
  cases fuel <;> rw [full_pop_loop, if_neg h]

theorem lastInfected_eq_of_getLast (df : List Row) (r : Row) (h : df.getLast? = some r) :
    lastInfected df = r.2 := by
  rw [lastInfected, h]
  rfl

theorem forall_mem_of_dropLast_getLast (Q : Row → Prop) (df : List Row)
    (h1 : ∀ r ∈ df.dropLast, Q r) (h2 : ∀ r, df.getLast? = some r → Q r) :
    ∀ r ∈ df, Q r := by
  rcases List.eq_nil_or_concat df with rfl | ⟨l, a, hdf⟩
  · intro r hr; cases hr
  · rw [List.concat_eq_append] at hdf
    subst hdf
    intro r hr
    rw [List.dropLast_concat] at h1
    rw [List.getLast?_concat] at h2
    rcases List.mem_append.1 hr with h | h
    · exact h1 r h
    · rw [List.mem_singleton] at h
      subst h
      exact h2 r rfl

theorem getLast?_map_fst (df : List Row) (r : Row) (h : df.getLast? = some r) :
    (df.map Prod.fst).getLast? = some r.1 := by
  rcases List.eq_nil_or_concat df with rfl | ⟨l, a, hdf⟩
  · cases h
  · rw [List.concat_eq_append] at hdf
    subst hdf
    rw [List.getLast?_concat] at h
    injection h with h
    subst h
    rw [List.map_append]
    simp [List.getLast?_concat]

/-- Loop invariant for `full_pop_loop`: starting from a nonempty frame whose
day column is `0,1,...`, whose Infected column is monotone, whose rows before
the last are strictly below the ceiling and whose last row is at most the
ceiling, any successful run returns a frame with the same invariants, a `day`
counter equal to the frame length, and a last Infected value of exactly the
ceiling. -/
theorem full_pop_loop_inv (P : Int) (p : ℚ) (u : Nat → ℚ) :
    ∀ (fuel : Nat) (df : List Row) (ix : Nat) (df2 : List Row) (d2 ix2 : Nat),
      df ≠ [] →
      df.map Prod.fst = List.range df.length →
      List.Chain' (fun a b : Row => a.2 ≤ b.2) df →
      (∀ r ∈ df.dropLast, r.2 < P) →
      lastInfected df ≤ P →
      full_pop_loop P p u fuel df.length df ix = some (df2, d2, ix2) →
      (df2 ≠ [] ∧ df2.map Prod.fst = List.range df2.length ∧ d2 = df2.length ∧
        List.Chain' (fun a b : Row => a.2 ≤ b.2) df2 ∧
        (∀ r ∈ df2.dropLast, r.2 < P) ∧ lastInfected df2 = P) := by
  intro fuel
  induction fuel with
  | zero =>
      intro df ix df2 d2 ix2 hne hdays hmono hdrop hlast hrun
      rw [full_pop_loop] at hrun
      by_cases hc : lastInfected df < P
      · rw [if_pos hc] at hrun; cases hrun
      · rw [if_neg hc] at hrun
        simp only [Option.some.injEq, Prod.mk.injEq] at hrun
        obtain ⟨rfl, rfl, rfl⟩ := hrun
        exact ⟨hne, hdays, rfl, hmono, hdrop, le_antisymm hlast (not_lt.1 hc)⟩
  | succ f ih =>
      intro df ix df2 d2 ix2 hne hdays hmono hdrop hlast hrun
      rw [full_pop_loop] at hrun
      by_cases hc : lastInfected df < P
      · rw [if_pos hc] at hrun
        set v : Int := (daily_infection (lastInfected df) p 3 u ix).1 with hv
        set row : Row := if v < P then ((df.length, v) : Row) else (df.length, P) with hrow
        have hrow1 : row.1 = df.length := by
          by_cases hvP : v < P <;> simp [hrow, hvP]
        have hrow2le : row.2 ≤ P := by
          by_cases hvP : v < P <;> simp [hrow, hvP]
          exact le_of_lt hvP
        have hrow2ge : lastInfected df ≤ row.2 := by
          have hge : lastInfected df ≤ v := daily_infection_fst_ge _ _ _ _ _
          by_cases hvP : v < P <;> simp [hrow, hvP]
          · exact hge
          · exact le_of_lt hc
        have hall : ∀ r ∈ df, r.2 < P :=
          forall_mem_of_dropLast_getLast _ df hdrop
            (fun r hr => lastInfected_eq_of_getLast df r hr ▸ hc)
        have hlen : (df ++ [row]).length = df.length + 1 := by
          rw [List.length_append, List.length_singleton]
        rw [show df.length + 1 = (df ++ [row]).length from hlen.symm] at hrun
        refine ih (df ++ [row]) _ df2 d2 ix2 (by simp) ?_ ?_ ?_ ?_ hrun
        · rw [List.map_append, hdays, hlen]
          rw [List.range_succ]
          simp [hrow1]
        · rw [List.chain'_append]
          refine ⟨hmono, List.chain'_singleton row, ?_⟩
          intro x hx y hy
          rw [List.head?_cons, Option.mem_def, Option.some.injEq] at hy
          subst hy
          rw [Option.mem_def] at hx
          calc x.2 = lastInfected df := (lastInfected_eq_of_getLast df x hx).symm
            _ ≤ row.2 := hrow2ge
        · rw [List.dropLast_concat]
          exact hall
        · rw [lastInfected_concat]
          exact hrow2le
      · rw [if_neg hc] at hrun
        simp only [Option.some.injEq, Prod.mk.injEq] at hrun
        obtain ⟨rfl, rfl, rfl⟩ := hrun
        exact ⟨hne, hdays, rfl, hmono, hdrop, le_antisymm hlast (not_lt.1 hc)⟩

theorem full_pop_loop_nonterm (P s : Int) (p : ℚ) (u : Nat → ℚ)
    (hp : p ≤ 0) (hu : ∀ i, 0 ≤ u i) (hsP : s < P) :
    ∀ (fuel day : Nat) (df : List Row) (ix : Nat),
      lastInfected df = s →
      full_pop_loop P p u fuel day df ix = none := by
  intro fuel
  induction fuel with
  | zero =>
      intro day df ix hlast
      rw [full_pop_loop, if_pos (by rw [hlast]; exact hsP)]
  | succ f ih =>
      intro day df ix hlast
      rw [full_pop_loop, if_pos (by rw [hlast]; exact hsP)]
      apply ih
      have hd : (daily_infection s p 3 u ix).1 = s := by
        rw [daily_infection_eq]
        dsimp only
        rw [specCount_eq_zero p u hp hu]
        simp
      rw [hlast, hd, if_pos hsP, lastInfected_concat]

/-- C3 (amended): `full_pop_infected` with `infection_probability = 0` and
`starting_infected < population` never terminates: for every fuel bound the
loop is still running (the daily update returns its input unchanged, so the
recorded value never reaches the ceiling).  The other two drivers,
`infection_model` and `vaccine_introduction`, are total functions of their
inputs by construction. -/
theorem full_pop_nonterm (P s : Int) (u : Nat → ℚ) (ix fuel : Nat)
    (hu : ∀ i, 0 ≤ u i) (hsP : s < P) :
    full_pop_infected P s 0 u ix fuel = none := by
  rw [full_pop_infected]
  exact full_pop_loop_nonterm P s 0 u le_rfl hu hsP fuel 1 [(0, s)] ix
    (by simp [lastInfected])

/-- Witness for C3's amended theorem at concrete inputs. -/
theorem full_pop_nonterm_witness :
    (∀ i : Nat, (0:ℚ) ≤ (fun _ => (1:ℚ)/3) i) ∧ (4:Int) < 9 ∧
      full_pop_infected 9 4 0 (fun _ => (1:ℚ)/3) 0 7 = none :=
  ⟨fun _ => by norm_num, by norm_num,
    full_pop_nonterm 9 4 (fun _ => (1:ℚ)/3) 0 7 (fun _ => by norm_num) (by norm_num)⟩

/-- C3 counterexample: the claim that every `full_pop_infected` call
terminates — explicitly including `infection_probability = 0` with
`starting_infected < population` — is false: at population 10, starting
count 5 and probability 0 no fuel bound ever yields a result. -/
theorem full_pop_nonterm_cex :
    ¬ ∃ (fuel : Nat) (df : List Row) (d jx : Nat),
        full_pop_infected 10 5 0 (fun _ => (1:ℚ)/2) 0 fuel = some (df, d, jx) := by
  rintro ⟨fuel, df, d, jx, h⟩
  rw [full_pop_infected, full_pop_loop_nonterm 10 5 0 (fun _ => (1:ℚ)/2) le_rfl
      (fun _ => by norm_num) (by norm_num) fuel 1 [(0, 5)] 0 (by simp [lastInfected])] at h
  cases h

/-- C5: with `starting_infected ≥ population` the while-condition fails at
once: the returned series is only the day-0 row, `daily_infection` is never
invoked (the draw index is unchanged), and the reported day count is 1. -/
theorem full_pop_sat_start (P s : Int) (p : ℚ) (u : Nat → ℚ) (ix fuel : Nat)
    (h : P ≤ s) :
    full_pop_infected P s p u ix fuel = some ([(0, s)], 1, ix) := by
  rw [full_pop_infected]
  refine full_pop_loop_exit P p u fuel 1 [(0, s)] ix ?_
  simp [lastInfected]
  exact h

/-- Witness for C5 at concrete inputs. -/
theorem full_pop_sat_start_witness :
    (5:Int) ≤ 7 ∧
      full_pop_infected 5 7 (1/2) (fun _ => (1:ℚ)/2) 4 9 = some ([(0, 7)], 1, 4) :=
  ⟨by norm_num, full_pop_sat_start 5 7 (1/2) (fun _ => (1:ℚ)/2) 4 9 (by norm_num)⟩

/-- C4: every terminating `full_pop_infected` run with
`0 ≤ starting_infected < population` ends with a last recorded Infected value
of exactly the population, and no earlier recorded value reaches it (each
appended value is the raw `daily_infection` result when below the population
and the population itself otherwise, by definition of `full_pop_loop`). -/
theorem full_pop_last_eq_population (P s : Int) (p : ℚ) (u : Nat → ℚ) (ix fuel : Nat)
    (df : List Row) (d jx : Nat)
    (hs0 : 0 ≤ s) (hsP : s < P)
    (hrun : full_pop_infected P s p u ix fuel = some (df, d, jx)) :
    lastInfected df = P ∧ ∀ r ∈ df.dropLast, r.2 < P := by
  have h := full_pop_loop_inv P p u fuel [(0, s)] ix df d jx (by simp)
      (by simp [List.range_succ]) (List.chain'_singleton _) (by simp)
      (by simp [lastInfected]; exact le_of_lt hsP) hrun
  exact ⟨h.2.2.2.2.2, h.2.2.2.2.1⟩

/-- Witness for C4 at concrete inputs (probability 1, every draw succeeds:
day 1 jumps from 10 to 40, clamped to the population 11). -/
theorem full_pop_last_eq_population_witness :
    (0:Int) ≤ 10 ∧ (10:Int) < 11 ∧
      (lastInfected [(0, 10), (1, 11)] = 11 ∧
        ∀ r ∈ ([(0, 10), (1, 11)] : List Row).dropLast, r.2 < 11) :=
  ⟨by norm_num, by norm_num,
    full_pop_last_eq_population 11 10 1 (fun _ => (0:ℚ)) 0 5 [(0, 10), (1, 11)] 2 30
      (by norm_num) (by norm_num) (by decide)⟩

/-- C2 (amended): for every terminating `full_pop_infected` run with
`starting_infected < population`, the printed day count `D` equals ONE PLUS
the Day index of the row at which Infected first equals the population: the
ceiling is recorded in the last row, whose Day index is `D - 1`, because the
`day` counter is incremented once more after the final append. -/
theorem full_pop_reported_day (P s : Int) (p : ℚ) (u : Nat → ℚ) (ix fuel : Nat)
    (df : List Row) (d jx : Nat)
    (hsP : s < P)
    (hrun : full_pop_infected P s p u ix fuel = some (df, d, jx)) :
    ∃ r : Row, df.getLast? = some r ∧ r.2 = P ∧ d = r.1 + 1 ∧
      ∀ q ∈ df.dropLast, q.2 < P := by
  have h := full_pop_loop_inv P p u fuel [(0, s)] ix df d jx (by simp)
      (by simp [List.range_succ]) (List.chain'_singleton _) (by simp)
      (by simp [lastInfected]; exact le_of_lt hsP) hrun
  obtain ⟨hne, hdays, hd, _, hdrop, hlast⟩ := h
  have hex : ∃ r, df.getLast? = some r := by
    rcases List.eq_nil_or_concat df with rfl | ⟨l, a, hdf⟩
    · exact absurd rfl hne
    · rw [List.concat_eq_append] at hdf
      subst hdf
      exact ⟨a, List.getLast?_concat _⟩
  obtain ⟨r, hr⟩ := hex
  refine ⟨r, hr, ?_, ?_, hdrop⟩
  · rw [← lastInfected_eq_of_getLast df r hr]
    exact hlast
  · have hm := getLast?_map_fst df r hr
    rw [hdays] at hm
    have hpos : 0 < df.length := List.length_pos.2 hne
    obtain ⟨k, hk⟩ : ∃ k, df.length = k + 1 := ⟨df.length - 1, by omega⟩
    rw [hk, List.range_succ, List.getLast?_concat] at hm
    injection hm with hm
    omega

/-- Witness for C2's amended theorem at concrete inputs. -/
theorem full_pop_reported_day_witness :
    (8:Int) < 9 ∧
      ∃ r : Row, ([(0, 8), (1, 9)] : List Row).getLast? = some r ∧ r.2 = 9 ∧
        2 = r.1 + 1 ∧ ∀ q ∈ ([(0, 8), (1, 9)] : List Row).dropLast, q.2 < 9 :=
  ⟨by norm_num,
    full_pop_reported_day 9 8 1 (fun _ => (0:ℚ)) 0 5 [(0, 8), (1, 9)] 2 24
      (by norm_num) (by decide)⟩

/-- C2 counterexample: with population 11, 10 initially infected,
probability 1 and every draw 0, the run stops after one iteration: the
ceiling 11 is first (and only) recorded in the row with Day index 1, yet the
printed day count is 2 — the claimed equality `D = 1` is false. -/
theorem full_pop_reported_day_cex :
    full_pop_infected 11 10 1 (fun _ => (0:ℚ)) 0 5 = some ([(0, 10), (1, 11)], 2, 30) ∧
      List.find? (fun r => r.2 == 11) ([(0, 10), (1, 11)] : List Row) = some (1, 11) ∧
      (2 : Nat) ≠ 1 :=
  ⟨by decide, by decide, by decide⟩

/-- C9 (amended): in every series returned by a terminating
`full_pop_infected` call with `starting_infected ≤ population` — including
the day-0 row — no recorded Infected value exceeds the population ceiling. -/
theorem full_pop_no_exceed (P s : Int) (p : ℚ) (u : Nat → ℚ) (ix fuel : Nat)
    (df : List Row) (d jx : Nat)
    (hsP : s ≤ P)
    (hrun : full_pop_infected P s p u ix fuel = some (df, d, jx)) :
    ∀ r ∈ df, r.2 ≤ P := by
  by_cases hlt : s < P
  · have h := full_pop_loop_inv P p u fuel [(0, s)] ix df d jx (by simp)
        (by simp [List.range_succ]) (List.chain'_singleton _) (by simp)
        (by simp [lastInfected]; exact le_of_lt hlt) hrun
    obtain ⟨_, _, _, _, hdrop, hlast⟩ := h
    refine forall_mem_of_dropLast_getLast _ df (fun r hr => le_of_lt (hdrop r hr)) ?_
    intro r hr
    rw [← lastInfected_eq_of_getLast df r hr, hlast]
  · have hxit : full_pop_infected P s p u ix fuel = some ([(0, s)], 1, ix) := by
      rw [full_pop_infected]
      refine full_pop_loop_exit P p u fuel 1 [(0, s)] ix ?_
      simp [lastInfected]
      exact le_antisymm hsP (not_lt.1 hlt) ▸ le_refl P
    rw [hxit] at hrun
    simp only [Option.some.injEq, Prod.mk.injEq] at hrun
    obtain ⟨rfl, _, _⟩ := hrun
    intro r hr
    rw [List.mem_singleton] at hr
    subst hr
    exact hsP

/-- Witness for C9's amended theorem at concrete inputs. -/
theorem full_pop_no_exceed_witness :
    (7:Int) ≤ 7 ∧ ∀ r ∈ ([(0, 7)] : List Row), r.2 ≤ 7 :=
  ⟨le_refl 7,
    full_pop_no_exceed 7 7 (1/2) (fun _ => (1:ℚ)/2) 0 1 [(0, 7)] 1 0 (le_refl 7) (by decide)⟩

/-- C9 counterexample: with `starting_infected = 10 > population = 5` the
returned series is just the day-0 row, whose Infected value 10 exceeds the
ceiling 5 — so the claim without a bound on `starting_infected` is false. -/
theorem full_pop_no_exceed_cex :
    full_pop_infected 5 10 (1/2) (fun _ => (1:ℚ)/2) 0 3 = some ([(0, 10)], 1, 0) ∧
      ¬ (∀ r ∈ ([(0, 10)] : List Row), r.2 ≤ 5) :=
  ⟨by decide, by decide⟩

/-- C7: each day `d` of `vaccine_introduction` records exactly the result of
applying `daily_infection` to the previous day's recorded value, with the
plain probability while `d < vaccine_day` and with
`infection_probability - vaccine_effectiveness` (not clamped at zero) from
`vaccine_day` on; the raw result is recorded, with no population ceiling. -/
theorem vaccine_day_update (s vd : Int) (ve : ℚ) (nd : Int) (p : ℚ) (u : Nat → ℚ)
    (ix : Nat) (d : Nat) (hd1 : 1 ≤ d) (hd2 : (d : Int) ≤ nd) :
    ∃ (prev : Int) (jx : Nat),
      ((vaccine_introduction s vd ve nd p u ix).1)[d - 1]? = some (d - 1, prev) ∧
      ((vaccine_introduction s vd ve nd p u ix).1)[d]? =
        some (d, (daily_infection prev
          (if (d : Int) < vd then p else p - ve) 3 u jx).1) := by
  obtain ⟨k, rfl⟩ : ∃ k, d = k + 1 := ⟨d - 1, by omega⟩
  have hk2 : k + 1 < nd.toNat + 1 := by omega
  have hk1 : k < nd.toNat + 1 := by omega
  refine ⟨(vaccine_state vd ve p u s ix k).1, (vaccine_state vd ve p u s ix k).2, ?_, ?_⟩
  · rw [vaccine_canonical]
    dsimp only
    rw [show k + 1 - 1 = k by omega]
    rw [List.getElem?_map, List.getElem?_range hk1]
    rfl
  · rw [vaccine_canonical]
    dsimp only
    rw [List.getElem?_map, List.getElem?_range hk2]
    rfl

/-- Witness for C7 at concrete inputs. -/
theorem vaccine_day_update_witness :
    1 ≤ 1 ∧ ((1 : Nat) : Int) ≤ 2 ∧
      ∃ (prev : Int) (jx : Nat),
        ((vaccine_introduction 1 1 1 2 1 (fun _ => (0:ℚ)) 0).1)[1 - 1]? =
          some (1 - 1, prev) ∧
        ((vaccine_introduction 1 1 1 2 1 (fun _ => (0:ℚ)) 0).1)[1]? =
          some (1, (daily_infection prev
            (if ((1 : Nat) : Int) < 1 then 1 else 1 - 1) 3 (fun _ => (0:ℚ)) jx).1) :=
  ⟨le_refl 1, by norm_num,
    vaccine_day_update 1 1 1 2 1 (fun _ => (0:ℚ)) 0 1 (le_refl 1) (by norm_num)⟩

/-- The Day column is exactly `0, 1, 2, ...` in order. -/
def daysConsecutive (df : List Row) : Prop :=
  df.map Prod.fst = List.range df.length

/-- The Infected column is monotonically non-decreasing row to row. -/
def infectedMono (df : List Row) : Prop :=
  List.Chain' (fun a b : Row => a.2 ≤ b.2) df

theorem imodel_state_mono (p : ℚ) (u : Nat → ℚ) (s : Int) (ix0 i : Nat) :
    (imodel_state p u s ix0 i).1 ≤ (imodel_state p u s ix0 (i + 1)).1 :=
  daily_infection_fst_ge _ _ _ _ _

theorem vaccine_state_mono (vd : Int) (ve p : ℚ) (u : Nat → ℚ) (s : Int) (ix0 i : Nat) :
    (vaccine_state vd ve p u s ix0 i).1 ≤ (vaccine_state vd ve p u s ix0 (i + 1)).1 :=
  daily_infection_fst_ge _ _ _ _ _

theorem daysConsecutive_map_range (g : Nat → Int) (n : Nat) :
    daysConsecutive ((List.range n).map (fun i => ((i, g i) : Row))) := by
  unfold daysConsecutive
  rw [List.map_map, List.length_map, List.length_range]
  have hid : (Prod.fst ∘ fun i => ((i, g i) : Row)) = id := rfl
  rw [hid, List.map_id]

theorem infectedMono_map_range (g : Nat → Int) (n : Nat)
    (hg : ∀ i, g i ≤ g (i + 1)) :
    infectedMono ((List.range (n + 1)).map (fun i => ((i, g i) : Row))) := by
  unfold infectedMono
  rw [List.chain'_map, List.chain'_range_succ]
  intro m _
  exact hg m

/-- C8: every driver's series has Day values `0, 1, 2, ...` consecutive from 0
and a monotonically non-decreasing Infected column; the two fixed-duration
drivers return exactly `number_days + 1` rows. -/
theorem driver_series_invariants (N s vd nd P : Int) (p ve : ℚ) (u : Nat → ℚ) (ix : Nat)
    (hs : 0 ≤ s) (hN : 0 ≤ N) (hnd : 0 ≤ nd) :
    ((daysConsecutive (infection_model N s p u ix).1 ∧
      infectedMono (infection_model N s p u ix).1 ∧
      (((infection_model N s p u ix).1.length : Int) = N + 1)) ∧
    (daysConsecutive (vaccine_introduction s vd ve nd p u ix).1 ∧
      infectedMono (vaccine_introduction s vd ve nd p u ix).1 ∧
      (((vaccine_introduction s vd ve nd p u ix).1.length : Int) = nd + 1)) ∧
    (∀ (fuel : Nat) (df : List Row) (d jx : Nat),
      full_pop_infected P s p u ix fuel = some (df, d, jx) →
      daysConsecutive df ∧ infectedMono df)) := by
  refine ⟨?_, ?_, ?_⟩
  · rw [infection_model_canonical]
    dsimp only
    refine ⟨daysConsecutive_map_range _ _,
      infectedMono_map_range _ _ (fun i => imodel_state_mono p u s ix i), ?_⟩
    rw [List.length_map, List.length_range]
    omega
  · rw [vaccine_canonical]
    dsimp only
    refine ⟨daysConsecutive_map_range _ _,
      infectedMono_map_range _ _ (fun i => vaccine_state_mono vd ve p u s ix i), ?_⟩
    rw [List.length_map, List.length_range]
    omega
  · intro fuel df d jx hrun
    by_cases hlt : s < P
    · have h := full_pop_loop_inv P p u fuel [(0, s)] ix df d jx (by simp)
          (by simp [List.range_succ]) (List.chain'_singleton _) (by simp)
          (by simp [lastInfected]; exact le_of_lt hlt) hrun
      exact ⟨h.2.1, h.2.2.2.1⟩
    · have hxit : full_pop_infected P s p u ix fuel = some ([(0, s)], 1, ix) := by
        rw [full_pop_infected]
        refine full_pop_loop_exit P p u fuel 1 [(0, s)] ix ?_
        simp [lastInfected]
        exact not_lt.1 hlt
      rw [hxit] at hrun
      simp only [Option.some.injEq, Prod.mk.injEq] at hrun
      obtain ⟨rfl, _, _⟩ := hrun
      exact ⟨by simp [daysConsecutive, List.range_succ], List.chain'_singleton _⟩

/-- Witness for C8 at concrete inputs. -/
theorem driver_series_invariants_witness :
    (0:Int) ≤ 1 ∧ (0:Int) ≤ 1 ∧ (0:Int) ≤ 1 ∧
      ((daysConsecutive (infection_model 1 1 1 (fun _ => (0:ℚ)) 0).1 ∧
        infectedMono (infection_model 1 1 1 (fun _ => (0:ℚ)) 0).1 ∧
        (((infection_model 1 1 1 (fun _ => (0:ℚ)) 0).1.length : Int) = 1 + 1)) ∧
      (daysConsecutive (vaccine_introduction 1 1 1 1 1 (fun _ => (0:ℚ)) 0).1 ∧
        infectedMono (vaccine_introduction 1 1 1 1 1 (fun _ => (0:ℚ)) 0).1 ∧
        (((vaccine_introduction 1 1 1 1 1 (fun _ => (0:ℚ)) 0).1.length : Int) = 1 + 1)) ∧
      (∀ (fuel : Nat) (df : List Row) (d jx : Nat),
        full_pop_infected 2 1 1 (fun _ => (0:ℚ)) 0 fuel = some (df, d, jx) →
        daysConsecutive df ∧ infectedMono df)) :=
  ⟨by norm_num, by norm_num, by norm_num,
    driver_series_invariants 1 1 1 1 2 1 1 (fun _ => (0:ℚ)) 0
      (by norm_num) (by norm_num) (by norm_num)⟩
